import Mathlib

/-
Verification of the rss2epub feed-sync / send-ledger core (`src/main.ts`).

The TypeScript `FeedMailer` class is shallowly embedded below:
  * JS objects used as string-keyed maps (`this._cache.articles`) become
    association lists `List (String × _)` with JS insertion-order semantics
    (property insertion appends, `in` / indexing is `lookup`, `Object.entries`
    is the list itself).
  * External collaborators (RSS parser, Readability extractor, nodemailer,
    the EPUB library, `Date.parse`, the file system) become explicit function
    parameters; their success or failure is part of the input.
  * Exceptions become `Except` / explicit error fields; `fs.readFileSync`
    failing with `ENOENT` becomes a `none` result of the modelled disk.
  * `createHash("md5")` + `Buffer.toString("hex")` are implemented directly
    (RFC 1321 MD5 over byte lists, lowercase hex output).
All machine arithmetic is `Nat` reduced modulo `2 ^ 32` where the source
relies on 32-bit behaviour.
-/

namespace Rss2Epub

/-! ## Association-list primitives for JS object maps -/

/-- Property lookup on a JS object map (`obj[key]`, `key in obj`). -/
def lookup {α : Type} : List (String × α) → String → Option α
  | [], _ => none
  | (k, v) :: rest, key => if k = key then some v else lookup rest key

/-- Property assignment on a JS object map (`obj[key] = v`): overwrite in
place if the key exists, otherwise append (JS string-key insertion order). -/
def setKey {α : Type} (key : String) (v : α) : List (String × α) → List (String × α)
  | [] => [(key, v)]
  | (k, w) :: rest => if k = key then (k, v) :: rest else (k, w) :: setKey key v rest

/-! ## MD5 (RFC 1321) over byte lists, as `createHash("md5")` computes it -/

/-- 2 ^ 32, the modulus for all MD5 word arithmetic. -/
def M32 : Nat := 4294967296

/-- 32-bit addition. -/
def add32 (a b : Nat) : Nat := (a + b) % M32

/-- 32-bit complement. -/
def not32 (x : Nat) : Nat := x ^^^ (M32 - 1)

/-- 32-bit left rotation (input assumed `< M32`). -/
def rotl32 (x s : Nat) : Nat := ((x <<< s) % M32) ||| (x >>> (32 - s))

/-- The 64 MD5 sine-derived constants. -/
def md5K : List Nat :=
  [0xd76aa478, 0xe8c7b756, 0x242070db, 0xc1bdceee,
   0xf57c0faf, 0x4787c62a, 0xa8304613, 0xfd469501,
   0x698098d8, 0x8b44f7af, 0xffff5bb1, 0x895cd7be,
   0x6b901122, 0xfd987193, 0xa679438e, 0x49b40821,
   0xf61e2562, 0xc040b340, 0x265e5a51, 0xe9b6c7aa,
   0xd62f105d, 0x02441453, 0xd8a1e681, 0xe7d3fbc8,
   0x21e1cde6, 0xc33707d6, 0xf4d50d87, 0x455a14ed,
   0xa9e3e905, 0xfcefa3f8, 0x676f02d9, 0x8d2a4c8a,
   0xfffa3942, 0x8771f681, 0x6d9d6122, 0xfde5380c,
   0xa4beea44, 0x4bdecfa9, 0xf6bb4b60, 0xbebfbc70,
   0x289b7ec6, 0xeaa127fa, 0xd4ef3085, 0x04881d05,
   0xd9d4d039, 0xe6db99e5, 0x1fa27cf8, 0xc4ac5665,
   0xf4292244, 0x432aff97, 0xab9423a7, 0xfc93a039,
   0x655b59c3, 0x8f0ccc92, 0xffeff47d, 0x85845dd1,
   0x6fa87e4f, 0xfe2ce6e0, 0xa3014314, 0x4e0811a1,
   0xf7537e82, 0xbd3af235, 0x2ad7d2bb, 0xeb86d391]

/-- The 64 MD5 per-step rotation amounts. -/
def md5S : List Nat :=
  [7, 12, 17, 22, 7, 12, 17, 22, 7, 12, 17, 22, 7, 12, 17, 22,
   5, 9, 14, 20, 5, 9, 14, 20, 5, 9, 14, 20, 5, 9, 14, 20,
   4, 11, 16, 23, 4, 11, 16, 23, 4, 11, 16, 23, 4, 11, 16, 23,
   6, 10, 15, 21, 6, 10, 15, 21, 6, 10, 15, 21, 6, 10, 15, 21]

/-- Round function of step `i`. -/
def md5F (i b c d : Nat) : Nat :=
  if i < 16 then (b &&& c) ||| (not32 b &&& d)
  else if i < 32 then (d &&& b) ||| (not32 d &&& c)
  else if i < 48 then b ^^^ c ^^^ d
  else c ^^^ (b ||| not32 d)

/-- Message-word index of step `i`. -/
def md5G (i : Nat) : Nat :=
  if i < 16 then i
  else if i < 32 then (5 * i + 1) % 16
  else if i < 48 then (3 * i + 5) % 16
  else (7 * i) % 16

/-- Byte of a list at index `i` (0 past the end). -/
def byteAt (l : List Nat) (i : Nat) : Nat := l.getD i 0

/-- Little-endian 32-bit word `j` of a 64-byte chunk. -/
def chunkWord (chunk : List Nat) (j : Nat) : Nat :=
  byteAt chunk (4 * j) + 256 * byteAt chunk (4 * j + 1) +
    65536 * byteAt chunk (4 * j + 2) + 16777216 * byteAt chunk (4 * j + 3)

/-- One MD5 step on the `(a, b, c, d)` state. -/
def md5Step (M : Nat → Nat) (st : Nat × Nat × Nat × Nat) (i : Nat) : Nat × Nat × Nat × Nat :=
  match st with
  | (a, b, c, d) =>
    let f := add32 (add32 (add32 (md5F i b c d) a) (md5K.getD i 0)) (M (md5G i))
    (d, add32 b (rotl32 f (md5S.getD i 0)), b, c)

/-- Process one 64-byte chunk. -/
def md5Chunk (st : Nat × Nat × Nat × Nat) (chunk : List Nat) : Nat × Nat × Nat × Nat :=
  match (List.range 64).foldl (md5Step (chunkWord chunk)) st, st with
  | (a, b, c, d), (a0, b0, c0, d0) => (add32 a0 a, add32 b0 b, add32 c0 c, add32 d0 d)

/-- MD5 initial state. -/
def md5Init : Nat × Nat × Nat × Nat := (0x67452301, 0xefcdab89, 0x98badcfe, 0x10325476)

/-- Little-endian serialization of a 32-bit word. -/
def leBytes4 (x : Nat) : List Nat :=
  [x % 256, x / 256 % 256, x / 65536 % 256, x / 16777216 % 256]

/-- Little-endian serialization of a 64-bit length field. -/
def leBytes8 (x : Nat) : List Nat := leBytes4 (x % M32) ++ leBytes4 (x / M32)

/-- MD5 padding: `0x80`, zeros to 56 mod 64, then the bit length. -/
def md5Pad (msg : List Nat) : List Nat :=
  let zeros := (64 + 56 - (msg.length + 1) % 64) % 64
  msg ++ 0x80 :: (List.replicate zeros 0 ++ leBytes8 ((8 * msg.length) % (M32 * M32)))

/-- Split a byte list into 64-byte chunks. -/
def toChunks (l : List Nat) : List (List Nat) :=
  if h : l = [] then [] else
    have : l.length - 64 < l.length := by
      cases l with
      | nil => exact absurd rfl h
      | cons x xs => simp; omega
    l.take 64 :: toChunks (l.drop 64)
termination_by l.length
decreasing_by simpa using this

/-- MD5 digest: 16 bytes. -/
def md5 (msg : List Nat) : List Nat :=
  match (toChunks (md5Pad msg)).foldl md5Chunk md5Init with
  | (a, b, c, d) => leBytes4 a ++ leBytes4 b ++ leBytes4 c ++ leBytes4 d

/-! ## Lowercase hex encoding (`Buffer.toString("hex")`) -/

/-- The sixteen lowercase hex digit characters. -/
def hexDigits : List Char := "0123456789abcdef".data

/-- Hex digit character for a value `< 16`. -/
def hexDigitChar (n : Nat) : Char := hexDigits.getD n '0'

/-- Two lowercase hex characters per byte, as `Buffer.toString("hex")`. -/
def hexEncode : List Nat → List Char
  | [] => []
  | b :: bs => hexDigitChar (b / 16 % 16) :: hexDigitChar (b % 16) :: hexEncode bs

/-! ## UTF-8 bytes of a string (`hasher.update(string)` uses utf8) -/

/-- UTF-8 encoding of one code point. -/
def utf8EncodeNat (c : Nat) : List Nat :=
  if c < 128 then [c]
  else if c < 2048 then [192 ||| c / 64, 128 ||| c % 64]
  else if c < 65536 then [224 ||| c / 4096, 128 ||| c / 64 % 64, 128 ||| c % 64]
  else [240 ||| c / 262144, 128 ||| c / 4096 % 64, 128 ||| c / 64 % 64, 128 ||| c % 64]

/-- Concatenation of a list of byte lists. -/
def concatAll : List (List Nat) → List Nat
  | [] => []
  | l :: ls => l ++ concatAll ls

/-- UTF-8 bytes of a string. -/
def strBytes (s : String) : List Nat :=
  concatAll (s.data.map (fun c => utf8EncodeNat c.toNat))

/-! ## Article identity (main.ts downloadFeedItems, lines 248-253) -/

/-- `const url = new URL(item.link); url.hash = ""` — dropping the fragment of
a URL keeps everything before the first `#` (scheme, host, path, query).
WHATWG URL normalization other than fragment removal is not modelled. -/
def stripFragment (url : String) : String :=
  String.mk (url.data.takeWhile (fun c => c != '#'))

/-- `createHash("md5").update(url.toString()).digest().toString("hex")`
applied to the fragment-stripped link: the cache id of a feed item. -/
def articleId (link : String) : String :=
  String.mk (hexEncode (md5 (strBytes (stripFragment link))))

/-! ## Data model (main.ts types) -/

/-- `FeedItem` as cached: data of the feed entry at discovery time. -/
structure FeedItem where
  title : String
  id : String
  pubDate : Option String
  link : Option String
  description : Option String
deriving DecidableEq

/-- `ArticleMetadata`: fields produced by the Readability extractor. -/
structure ArticleMetadata where
  title : String
  byline : String
  length : Nat
  excerpt : String
  siteName : String
deriving DecidableEq

/-- `FeedCacheArticle`: one record of the article store. -/
structure FeedCacheArticle where
  deleted : Bool
  feedItem : FeedItem
  readabilityMeta : ArticleMetadata
deriving DecidableEq

/-- `SendStatus`. -/
inductive SendStatus where
  | FAILED
  | SUCCESS
deriving DecidableEq

/-- `SendLogEntry`: one entry of the send ledger. -/
structure SendLogEntry where
  sentAt : String
  sentTo : String
  articlesSent : List String
  status : SendStatus
deriving DecidableEq

/-- `FeedCache`: the persisted store (ledger + article map). -/
structure FeedCache where
  emails : List SendLogEntry
  articles : List (String × FeedCacheArticle)
deriving DecidableEq

/-- An item of the fetched feed as `rss-parser` exposes it
(`item.title`, `item.guid`, `item.link`, `item.pubDate`, `item.summary`).
`item.link` is modelled as present: `new URL(item.link)` on a missing link
would throw before any cache access, which no claim exercises. -/
structure RSSItem where
  title : String
  guid : String
  link : String
  pubDate : Option String
  summary : Option String
deriving DecidableEq

/-- Result of the Readability extractor (`this.getArticle`). -/
structure ExtractedArticle where
  title : String
  byline : String
  length : Nat
  excerpt : String
  siteName : String
  content : String
deriving DecidableEq

/-! ## Send ledger (main.ts lines 298-302 and 358-365) -/

/-- JS truthiness of the `to` filter: `(!to || e.sentTo == to)`.
An absent or empty `to` matches every entry. -/
def matchesTo (who : Option String) (sentTo : String) : Bool :=
  match who with
  | none => true
  | some t => t == "" || sentTo == t

/-- `getSentArtcleIds` (typo as in the source): ids of all articles in
SUCCESS ledger entries addressed to `who`. -/
def getSentArtcleIds (cache : FeedCache) (who : Option String) : List String :=
  (cache.emails.filter (fun e => e.status == SendStatus.SUCCESS && matchesTo who e.sentTo)).flatMap
    (fun e => e.articlesSent)

/-- `getUnsent`: every `Object.entries(articles)` pair whose id is not in the
sent list. The source does not consult the `deleted` flag here. -/
def getUnsent (cache : FeedCache) (who : Option String) : List (String × FeedCacheArticle) :=
  let sent := getSentArtcleIds cache who
  cache.articles.filter (fun p => !(sent.contains p.1))

/-- `_logSend`: push one ledger entry (timestamp `now` supplied by the clock). -/
def logSend (cache : FeedCache) (toAddr : String) (articles : List String)
    (status : SendStatus) (now : String) : FeedCache :=
  { cache with emails := cache.emails ++ [⟨now, toAddr, articles, status⟩] }

/-! ## Feed reconciliation (main.ts downloadFeedItems, lines 240-296) -/

/-- The tombstoning pass (lines 289-293): every record whose id is not in
`idsInFeed` gets `deleted := true`, in place. -/
def markDeleted (arts : List (String × FeedCacheArticle)) (idsInFeed : List String) :
    List (String × FeedCacheArticle) :=
  arts.map (fun p => if idsInFeed.contains p.1 then p else (p.1, { p.2 with deleted := true }))

/-- The per-item loop of `downloadFeedItems` (lines 248-287).
`extract` is the external Readability collaborator (`none` = the `try` block
threw and the item is skipped); `toISO` models
`new Date(pubDate).toISOString()`. Returns the updated article map, the
`idsInFeed` list, and the links passed to the extractor, in order. -/
def syncLoop (extract : String → Option ExtractedArticle) (toISO : String → String) :
    List RSSItem → List (String × FeedCacheArticle) →
      List (String × FeedCacheArticle) × List String × List String
  | [], arts => (arts, [], [])
  | item :: rest, arts =>
    let id := articleId item.link
    match lookup arts id with
    | some _ =>
      let r := syncLoop extract toISO rest arts
      (r.1, id :: r.2.1, r.2.2)
    | none =>
      match extract item.link with
      | none =>
        let r := syncLoop extract toISO rest arts
        (r.1, id :: r.2.1, item.link :: r.2.2)
      | some article =>
        let record : FeedCacheArticle :=
          { deleted := false
            feedItem :=
              { title := item.title
                id := item.guid
                link := some item.link
                pubDate := item.pubDate.map toISO
                description := item.summary }
            readabilityMeta :=
              { title := article.title
                byline := article.byline
                length := article.length
                excerpt := article.excerpt
                siteName := article.siteName } }
        let r := syncLoop extract toISO rest (setKey id record arts)
        (r.1, id :: r.2.1, item.link :: r.2.2)

/-- `downloadFeedItems`: run the sync loop over the fetched feed, then the
tombstoning pass. Returns the updated cache, `idsInFeed`, and the extractor
calls made. (The content files written beside the cache are modelled
separately, as the `disk` parameter of `gatherArticles`.) -/
def downloadFeedItems (extract : String → Option ExtractedArticle) (toISO : String → String)
    (feed : List RSSItem) (cache : FeedCache) : FeedCache × List String × List String :=
  let r := syncLoop extract toISO feed cache.articles
  ({ cache with articles := markDeleted r.1 r.2.1 }, r.2.1, r.2.2)

/-! ## EPUB assembly (main.ts makeEpub, lines 309-356) -/

/-- The two cache-level failures of `makeEpub`: `no article with id` when the
id has no record, `bad cache: article has entry, but no corrosponding
content` when `readFileSync` fails with `ENOENT`. -/
inductive MakeEpubError where
  | notFound (id : String)
  | corruptStore (id : String)
deriving DecidableEq

/-- A built EPUB: its title and its chapters (title, html data). Metadata
fields not examined by any claim (description, date, author) are omitted. -/
structure Epub where
  title : String
  chapters : List (String × String)
deriving DecidableEq

/-- The content-gathering loop of `makeEpub` (lines 314-331). `disk` models
the `<id>.html` files next to the cache; `none` is `ENOENT`. The first
failure throws, aborting the whole bundling operation. -/
def gatherArticles (arts : List (String × FeedCacheArticle)) (disk : String → Option String) :
    List String → Except MakeEpubError (List (FeedCacheArticle × String))
  | [] => Except.ok []
  | id :: rest =>
    match lookup arts id with
    | none => Except.error (MakeEpubError.notFound id)
    | some a =>
      match disk id with
      | none => Except.error (MakeEpubError.corruptStore id)
      | some content =>
        match gatherArticles arts disk rest with
        | Except.error e => Except.error e
        | Except.ok tl => Except.ok ((a, content) :: tl)

/-- `makeEpub`: gather all contents (any failure aborts), then build the
book; with exactly one article the book inherits that article title, and a
missing title falls back to the generated collection title (`now` models
`new Date().toDateString()`). -/
def makeEpub (cache : FeedCache) (disk : String → Option String) (now : String)
    (articleIds : List String) (optsTitle : Option String) : Except MakeEpubError Epub :=
  match gatherArticles cache.articles disk articleIds with
  | Except.error e => Except.error e
  | Except.ok articles =>
    let title :=
      match optsTitle with
      | some t => t
      | none =>
        match articles with
        | [(a, _)] => a.feedItem.title
        | _ => "Article Collection, Generated " ++ now
    Except.ok ⟨title, articles.map (fun p => (p.1.feedItem.title, p.2))⟩

/-! ## Individual send mode (main.ts sendAllIndividual, lines 367-382) -/

/-- What stops an individual-mode run: a thrown `makeEpub` error or a
rejected `sendMail`. -/
inductive IndivError where
  | epubErr (e : MakeEpubError)
  | sendErr (id : String)
deriving DecidableEq

/-- Outcome of one `sendAllIndividual` invocation. `persisted` is the cache
on disk after the run (`writeCache` runs only if no exception was thrown);
`inMemory` is the process cache when the run ended; `attempted` lists the
ids for which `sendMail` was invoked, in order. -/
structure IndivResult where
  persisted : FeedCache
  inMemory : FeedCache
  attempted : List String
  error : Option IndivError
deriving DecidableEq

/-- The `for (const [articleId, _article] of this.getUnsent(...))` loop:
build a one-article epub, send it, then `_logSend(to, [articleId],
"SUCCESS")`. An exception (epub failure or send failure — `sendOk` models
the mail transport) propagates immediately; no `FAILED` entry is written. -/
def sendIndivGo (toAddr now : String) (disk : String → Option String)
    (sendOk : String → Bool) :
    List (String × FeedCacheArticle) → FeedCache → FeedCache × List String × Option IndivError
  | [], cache => (cache, [], none)
  | (id, _) :: rest, cache =>
    match makeEpub cache disk now [id] none with
    | Except.error e => (cache, [], some (IndivError.epubErr e))
    | Except.ok _ =>
      if sendOk id then
        let r := sendIndivGo toAddr now disk sendOk rest (logSend cache toAddr [id] SendStatus.SUCCESS now)
        (r.1, id :: r.2.1, r.2.2)
      else (cache, [id], some (IndivError.sendErr id))

/-- `sendAllIndividual`: iterate over the unsent list (computed once, up
front) and snapshot the cache afterwards — only when no exception escaped
the loop. -/
def sendAllIndividual (toAddr now : String) (disk : String → Option String)
    (sendOk : String → Bool) (cache : FeedCache) : IndivResult :=
  let r := sendIndivGo toAddr now disk sendOk (getUnsent cache (some toAddr)) cache
  { persisted := match r.2.2 with | none => r.1 | some _ => cache
    inMemory := r.1
    attempted := r.2.1
    error := r.2.2 }

/-! ## Amalgamate send mode (main.ts sendAllAmalgamate, lines 384-417) -/

/-- Stable insertion of `x` into `l`, before the first element `y` with
`¬ le x y`. -/
def insertByLe {α : Type} (le : α → α → Bool) (x : α) : List α → List α
  | [] => [x]
  | y :: ys => if le x y then x :: y :: ys else y :: insertByLe le x ys

/-- Stable ascending sort by `le`, modelling `Array.prototype.sort` with a
consistent numeric comparator (JS sort is stable). -/
def sortByLe {α : Type} (le : α → α → Bool) : List α → List α
  | [] => []
  | x :: xs => insertByLe le x (sortByLe le xs)

/-- Options of `sendAllAmalgamate` (spelled as in the source). -/
structure AmalgOpts where
  cronological : Bool
  reversed : Bool
deriving DecidableEq

/-- What stops an amalgamate-mode run. -/
inductive AmalgError where
  | epubErr (e : MakeEpubError)
  | sendFailed
deriving DecidableEq

/-- Outcome of one `sendAllAmalgamate` invocation; `sent` is the epub handed
to `sendMail` when the send happened. -/
structure AmalgResult where
  persisted : FeedCache
  inMemory : FeedCache
  sent : Option Epub
  error : Option AmalgError
deriving DecidableEq

/-- The selection prefix of `sendAllAmalgamate`: every unsent article,
optionally sorted by `Date.parse(pubDate)` (`dateParse` models `Date.parse`
on the optional ISO string), optionally reversed. -/
def amalgSelection (toAddr : String) (dateParse : Option String → Int) (opts : AmalgOpts)
    (cache : FeedCache) : List (String × FeedCacheArticle) :=
  let unsent0 := getUnsent cache (some toAddr)
  let unsent1 :=
    if opts.cronological then
      sortByLe (fun p q => dateParse p.2.feedItem.pubDate ≤ dateParse q.2.feedItem.pubDate) unsent0
    else unsent0
  if opts.reversed then unsent1.reverse else unsent1

/-- `sendAllAmalgamate`: select (see `amalgSelection`), bundle everything
into one epub, send once, then append a single SUCCESS ledger entry
covering the whole set. There is no truncation step in this revision.
`sendOk` models the mail transport. -/
def sendAllAmalgamate (toAddr now : String) (disk : String → Option String) (sendOk : Bool)
    (dateParse : Option String → Int) (opts : AmalgOpts) (cache : FeedCache) : AmalgResult :=
  let unsent := amalgSelection toAddr dateParse opts cache
  match makeEpub cache disk now (unsent.map (fun p => p.1)) none with
  | Except.error e => ⟨cache, cache, none, some (AmalgError.epubErr e)⟩
  | Except.ok epub =>
    if sendOk then
      let c := logSend cache toAddr (unsent.map (fun p => p.1)) SendStatus.SUCCESS now
      ⟨c, c, some epub, none⟩
    else ⟨cache, cache, none, some AmalgError.sendFailed⟩

/-! ## Feed selection pipeline (part_002 fetchArticlesFromFeed, lines 449-477) -/

/-- A parsed feed item as `feedparser` exposes it to the selection steps:
only the fields the pipeline reads. `date` is the `Date` value as a unix
timestamp (`getTime`), absent when the item has no date. -/
structure FPItem where
  title : String
  link : String
  date : Option Int
deriving DecidableEq

/-- `FetchArticlesFromFeedOpts`; `orderByDate` is `opts.orderBy == "date"`. -/
structure FetchOpts where
  before : Option Int
  after : Option Int
  max : Option Nat
  orderByDate : Bool
  reverse : Bool
deriving DecidableEq

/-- The selection phase of `fetchArticlesFromFeed`, step for step: drop
undated items when any time-based option is active, filter by `before` and
`after` (strict), stable-sort ascending by date, reverse, then truncate to
`max` — in exactly this order. -/
def selectFeedItems (opts : FetchOpts) (items0 : List FPItem) : List FPItem :=
  let items1 :=
    if opts.before.isSome || opts.after.isSome || opts.orderByDate then
      items0.filter (fun x => x.date.isSome)
    else items0
  let items2 :=
    match opts.before with
    | none => items1
    | some b => items1.filter (fun x => match x.date with | none => false | some d => d < b)
  let items3 :=
    match opts.after with
    | none => items2
    | some a => items2.filter (fun x => match x.date with | none => false | some d => a < d)
  let items4 :=
    if opts.orderByDate then
      sortByLe (fun p q => (p.date.getD 0) ≤ (q.date.getD 0)) items3
    else items3
  let items5 := if opts.reverse then items4.reverse else items4
  match opts.max with
  | none => items5
  | some m => items5.take (Nat.min m items5.length)

/-! ## Concrete fixtures used by witnesses and counterexamples -/

/-- Extractor metadata used by the fixtures. -/
def metaA : ArticleMetadata := ⟨"MT", "MB", 1, "ME", "MS"⟩

/-- A live (not deleted) cached article named by its title. -/
def artLive (t : String) : FeedCacheArticle :=
  ⟨false, ⟨t, "g", some ("http://x/" ++ t), none, none⟩, metaA⟩

/-- A tombstoned cached article. -/
def artDead : FeedCacheArticle := ⟨true, ⟨"td", "gd", some "http://x/d", none, none⟩, metaA⟩

/-- The empty cache (fresh first run). -/
def cacheEmpty : FeedCache := ⟨[], []⟩

/-- Cache holding a single deleted record and no ledger entries. -/
def cacheC1 : FeedCache := ⟨[], [("d", artDead)]⟩

/-- Cache with three unsent articles. -/
def cacheC2 : FeedCache :=
  ⟨[], [("a1", artLive "a1"), ("a2", artLive "a2"), ("a3", artLive "a3")]⟩

/-- A disk holding content for every id. -/
def diskAll : String → Option String := fun _ => some "content"

/-- A disk with every content file missing. -/
def diskNone : String → Option String := fun _ => none

/-- A mail transport that rejects exactly the send of article `a2`. -/
def sendC2 : String → Bool := fun id => id != "a2"

/-- A mail transport that accepts everything. -/
def sendAllOk : String → Bool := fun _ => true

/-- An extractor that always throws. -/
def extractNone : String → Option ExtractedArticle := fun _ => none

/-- A one-item feed. -/
def feedC3 : List RSSItem := [⟨"t", "g", "http://x/a", none, none⟩]

/-- Cache with one SUCCESS ledger entry for recipient `r` and article `A`. -/
def cacheC4 : FeedCache := ⟨[⟨"t0", "r", ["A"], SendStatus.SUCCESS⟩], []⟩

/-- Cache with a single live record, used for the tombstoning witness. -/
def cacheC5 : FeedCache := ⟨[], [("k", artLive "k")]⟩

/-- Cache with one record whose content file will be missing. -/
def cacheC8 : FeedCache := ⟨[], [("x", artLive "x")]⟩

/-- Cache with one unsent article for the ledger-status witness. -/
def cacheC9 : FeedCache := ⟨[], [("b1", artLive "b1")]⟩

/-- A `Date.parse` model mapping everything to 0. -/
def dateParse0 : Option String → Int := fun _ => 0

/-- Feed items A, B, C dated 2024-01-01, 2024-02-01, 2024-03-01
(`Date.parse` values in milliseconds). -/
def itemA : FPItem := ⟨"A", "http://x/A", some 1704067200000⟩

/-- See `itemA`. -/
def itemB : FPItem := ⟨"B", "http://x/B", some 1706745600000⟩

/-- See `itemA`. -/
def itemC : FPItem := ⟨"C", "http://x/C", some 1709251200000⟩

/-- `orderBy=date, reverse=true, max=2`. -/
def optsC6 : FetchOpts := ⟨none, none, some 2, true, true⟩

/-! ## Ledger and selection lemmas -/

/-- Membership in the derived sent list, unfolded to the ledger entries. -/
theorem mem_getSentArtcleIds {cache : FeedCache} {who : Option String} {A : String} :
    A ∈ getSentArtcleIds cache who ↔
      ∃ e ∈ cache.emails,
        e.status = SendStatus.SUCCESS ∧ matchesTo who e.sentTo = true ∧ A ∈ e.articlesSent := by
  simp only [getSentArtcleIds, List.mem_flatMap, List.mem_filter, Bool.and_eq_true, beq_iff_eq]
  constructor
  · rintro ⟨e, ⟨he, hs, hm⟩, hA⟩
    exact ⟨e, he, hs, hm, hA⟩
  · rintro ⟨e, he, hs, hm, hA⟩
    exact ⟨e, ⟨he, hs, hm⟩, hA⟩

/-- C1 (amended): for every recipient, `getUnsent` returns exactly the pairs
of the article map whose id is not in the sent-to-that-recipient list — the
`deleted` flag is not consulted, so tombstoned records may be returned. -/
theorem getUnsent_mem_iff (cache : FeedCache) (who : Option String)
    (p : String × FeedCacheArticle) :
    p ∈ getUnsent cache who ↔ p ∈ cache.articles ∧ p.1 ∉ getSentArtcleIds cache who := by
  simp [getUnsent, List.mem_filter]

/-- C1 counterexample: a store whose only record is tombstoned
(`deleted = true`) and an empty ledger; `getUnsent` still returns that id,
refuting `no id whose record has deleted == true ever appears`. -/
theorem getUnsent_deleted_counterexample :
    (getUnsent cacheC1 (some "r")).map Prod.fst = ["d"] ∧
      lookup cacheC1.articles "d" = some artDead ∧ artDead.deleted = true :=
  ⟨rfl, rfl, rfl⟩

/-- C4: an id is in the derived sent set for recipient `R` iff some SUCCESS
entry addressed to `R` contains it, and appending a FAILED entry for
`(R, A)` leaves the derived sent set unchanged (failed attempts never block
a retry). `R` is a real (nonempty) address: the source treats an empty
`to` as `no recipient filter`. -/
theorem sentSet_iff_success_and_failed_noop (cache : FeedCache) (R A : String) (hR : R ≠ "") :
    (A ∈ getSentArtcleIds cache (some R) ↔
      ∃ e ∈ cache.emails,
        e.status = SendStatus.SUCCESS ∧ e.sentTo = R ∧ A ∈ e.articlesSent) ∧
    (∀ now, getSentArtcleIds (logSend cache R [A] SendStatus.FAILED now) (some R) =
      getSentArtcleIds cache (some R)) := by
  constructor
  · rw [mem_getSentArtcleIds]
    have hmt : ∀ s : String, matchesTo (some R) s = true ↔ s = R := by
      intro s
      simp [matchesTo, hR]
    constructor
    · rintro ⟨e, he, hs, hm, hA⟩
      exact ⟨e, he, hs, (hmt e.sentTo).1 hm, hA⟩
    · rintro ⟨e, he, hs, hm, hA⟩
      exact ⟨e, he, hs, (hmt e.sentTo).2 hm, hA⟩
  · intro now
    simp [logSend, getSentArtcleIds, List.filter_append]

/-- Witness for `sentSet_iff_success_and_failed_noop` at a concrete ledger. -/
theorem sentSet_iff_success_and_failed_noop_witness :
    ("r" : String) ≠ "" ∧
    ("A" ∈ getSentArtcleIds cacheC4 (some "r") ↔
      ∃ e ∈ cacheC4.emails,
        e.status = SendStatus.SUCCESS ∧ e.sentTo = "r" ∧ "A" ∈ e.articlesSent) :=
  ⟨by decide, (sentSet_iff_success_and_failed_noop cacheC4 "r" "A" (by decide)).1⟩

/-- C6: the selection pipeline of `fetchArticlesFromFeed` applies
filter → sort → reverse → truncate in that order: with
`orderBy=date, reverse=true, max=2` on A(2024-01-01), B(2024-02-01),
C(2024-03-01) it yields exactly [C, B]; truncating before reversing would
instead yield [B, A], so the result distinguishes the two orders. -/
theorem selectFeedItems_order_scenario :
    selectFeedItems optsC6 [itemA, itemB, itemC] = [itemC, itemB] ∧
    selectFeedItems optsC6 [itemA, itemB, itemC] ≠
      ((sortByLe (fun p q => p.date.getD 0 ≤ q.date.getD 0) [itemA, itemB, itemC]).take 2).reverse := by
  constructor
  · decide
  · decide

/-- C8: with the record present but the content file missing the gather loop
of `makeEpub` fails with the `bad cache` error, which is distinct from the
`no article with id` error raised when the record itself is missing, and
any such error aborts the whole bundling operation. -/
theorem loadContent_error_distinction (cache : FeedCache) (disk : String → Option String)
    (now : String) (id : String) :
    (lookup cache.articles id = none →
      gatherArticles cache.articles disk [id] = Except.error (MakeEpubError.notFound id)) ∧
    (∀ a, lookup cache.articles id = some a → disk id = none →
      gatherArticles cache.articles disk [id] = Except.error (MakeEpubError.corruptStore id) ∧
        MakeEpubError.corruptStore id ≠ MakeEpubError.notFound id) ∧
    (∀ ids e, gatherArticles cache.articles disk ids = Except.error e →
      makeEpub cache disk now ids none = Except.error e) := by
  refine ⟨?_, ?_, ?_⟩
  · intro h
    simp [gatherArticles, h]
  · intro a ha hd
    simp [gatherArticles, ha, hd]
  · intro ids e h
    simp [makeEpub, h]

/-- Witness for `loadContent_error_distinction`: both failure shapes at a
concrete store and disk. -/
theorem loadContent_error_distinction_witness :
    gatherArticles cacheC8.articles diskNone ["zz"] = Except.error (MakeEpubError.notFound "zz") ∧
    gatherArticles cacheC8.articles diskNone ["x"] =
      Except.error (MakeEpubError.corruptStore "x") :=
  ⟨(loadContent_error_distinction cacheC8 diskNone "n" "zz").1 (by decide),
   ((loadContent_error_distinction cacheC8 diskNone "n" "x").2.1 (artLive "x") (by decide) rfl).1⟩

/-! ## MD5 output shape and article identity -/

/-- The MD5 digest always has 16 bytes. -/
theorem md5_length (msg : List Nat) : (md5 msg).length = 16 := by
  rcases hfold : (toChunks (md5Pad msg)).foldl md5Chunk md5Init with ⟨a, b, c, d⟩
  simp [md5, hfold, leBytes4]

/-- Hex encoding yields two characters per byte. -/
theorem hexEncode_length (bytes : List Nat) : (hexEncode bytes).length = 2 * bytes.length := by
  induction bytes with
  | nil => rfl
  | cons b bs ih =>
    simp [hexEncode, ih]
    ring

/-- Every hex digit character of a value below 16 is a lowercase hex digit. -/
theorem hexDigitChar_mem : ∀ n, n < 16 → hexDigitChar n ∈ hexDigits := by decide

/-- Every character of a hex encoding is a lowercase hex digit. -/
theorem hexEncode_mem {bytes : List Nat} {c : Char} (h : c ∈ hexEncode bytes) : c ∈ hexDigits := by
  induction bytes with
  | nil => cases h
  | cons b bs ih =>
    rcases h with _ | ⟨_, h⟩
    · exact hexDigitChar_mem _ (Nat.mod_lt _ (by norm_num))
    · rcases h with _ | ⟨_, h⟩
      · exact hexDigitChar_mem _ (Nat.mod_lt _ (by norm_num))
      · exact ih h

/-- `takeWhile` is idempotent. -/
theorem takeWhile_idem {α : Type} {p : α → Bool} (l : List α) :
    (l.takeWhile p).takeWhile p = l.takeWhile p := by
  induction l with
  | nil => rfl
  | cons x xs ih =>
    by_cases h : p x
    · simp [List.takeWhile_cons, h, ih]
    · simp [List.takeWhile_cons, h]

/-- Stripping the fragment twice equals stripping it once. -/
theorem stripFragment_idem (s : String) : stripFragment (stripFragment s) = stripFragment s :=
  congrArg String.mk (takeWhile_idem _)

/-- C7: the article id is 32 characters long, made only of lowercase hex
digits, depends only on the fragment-stripped link, and is therefore equal
for any two items with the same normalized URL. -/
theorem articleId_spec (l1 l2 : String) :
    (articleId l1).length = 32 ∧
    (∀ c ∈ (articleId l1).data, c ∈ hexDigits) ∧
    articleId (stripFragment l1) = articleId l1 ∧
    (stripFragment l1 = stripFragment l2 → articleId l1 = articleId l2) := by
  refine ⟨?_, ?_, ?_, ?_⟩
  · show (String.mk (hexEncode (md5 (strBytes (stripFragment l1))))).length = 32
    simp [String.length, hexEncode_length, md5_length]
  · intro c hc
    exact hexEncode_mem (show c ∈ hexEncode (md5 (strBytes (stripFragment l1))) from hc)
  · unfold articleId
    rw [stripFragment_idem]
  · intro h
    unfold articleId
    rw [h]

/-- Witness for `articleId_spec`: two links differing only in fragment. -/
theorem articleId_spec_witness :
    stripFragment "http://x/a?q=1#f" = stripFragment "http://x/a?q=1#g" ∧
    articleId "http://x/a?q=1#f" = articleId "http://x/a?q=1#g" :=
  ⟨rfl, (articleId_spec "http://x/a?q=1#f" "http://x/a?q=1#g").2.2.2 rfl⟩

/-! ## Reconciliation lemmas -/

/-- `setKey` makes the key visible. -/
theorem lookup_setKey_self {α : Type} (l : List (String × α)) (key : String) (v : α) :
    lookup (setKey key v l) key = some v := by
  induction l with
  | nil => simp [setKey, lookup]
  | cons p rest ih =>
    rcases p with ⟨k0, w⟩
    by_cases h : k0 = key
    · simp [setKey, h, lookup]
    · simp [setKey, h, lookup, ih]

/-- `setKey` leaves other keys untouched. -/
theorem lookup_setKey_ne {α : Type} (l : List (String × α)) (key k : String) (v : α)
    (h : k ≠ key) : lookup (setKey key v l) k = lookup l k := by
  induction l with
  | nil => simp [setKey, lookup, Ne.symm h]
  | cons p rest ih =>
    rcases p with ⟨k0, w⟩
    by_cases h0 : k0 = key
    · subst h0
      simp [setKey, lookup, Ne.symm h]
    · simp [setKey, h0, lookup, ih]

/-- Two caches with the same ledger and the same article map are equal. -/
theorem FeedCache.ext' {x y : FeedCache} (he : x.emails = y.emails)
    (ha : x.articles = y.articles) : x = y := by
  cases x
  cases y
  cases he
  cases ha
  rfl

/-- Unfolding `markDeleted` on a cons cell. -/
theorem markDeleted_cons (p : String × FeedCacheArticle) (rest : List (String × FeedCacheArticle))
    (ids : List String) :
    markDeleted (p :: rest) ids =
      (if ids.contains p.1 then p else (p.1, { p.2 with deleted := true })) :: markDeleted rest ids := rfl

/-- Looking a key up after tombstoning: the record is still there, with
`deleted` forced to `true` exactly when the key is not in `ids`. -/
theorem lookup_markDeleted (arts : List (String × FeedCacheArticle)) (ids : List String)
    (k : String) :
    lookup (markDeleted arts ids) k =
      (lookup arts k).map (fun a => if ids.contains k then a else { a with deleted := true }) := by
  induction arts with
  | nil => rfl
  | cons p rest ih =>
    rcases p with ⟨k0, a0⟩
    rw [markDeleted_cons]
    by_cases hm : k0 ∈ ids
    · rw [if_pos (by simpa using hm)]
      by_cases h : k0 = k
      · subst h
        simp [lookup, hm]
      · simp [lookup, h, ih]
    · rw [if_neg (by simpa using hm)]
      by_cases h : k0 = k
      · subst h
        simp [lookup, hm]
      · simp [lookup, h, ih]

/-- Tombstoning twice is tombstoning once. -/
theorem markDeleted_idem (arts : List (String × FeedCacheArticle)) (ids : List String) :
    markDeleted (markDeleted arts ids) ids = markDeleted arts ids := by
  induction arts with
  | nil => rfl
  | cons p rest ih =>
    rcases p with ⟨k, a⟩
    by_cases hc : ids.contains k
    · rw [markDeleted_cons, if_pos hc, markDeleted_cons, if_pos hc, ih]
    · rw [markDeleted_cons, if_neg hc, markDeleted_cons]
      show (if ids.contains k = true then _ else _) :: _ = _
      rw [if_neg hc, ih]

/-- The seen-this-sync id list depends only on the feed: it is the id of
every item, recorded whether or not the item was skipped. -/
theorem syncLoop_ids (extract : String → Option ExtractedArticle) (toISO : String → String)
    (feed : List RSSItem) :
    ∀ arts, (syncLoop extract toISO feed arts).2.1 = feed.map (fun i => articleId i.link) := by
  induction feed with
  | nil => intro arts; rfl
  | cons item rest ih =>
    intro arts
    cases hl : lookup arts (articleId item.link) with
    | some a => simp [syncLoop, hl, ih]
    | none =>
      cases he : extract item.link with
      | none => simp [syncLoop, hl, he, ih]
      | some art => simp [syncLoop, hl, he, ih]

/-- The sync loop never removes or overwrites an existing record. -/
theorem syncLoop_lookup_some (extract : String → Option ExtractedArticle)
    (toISO : String → String) (feed : List RSSItem) :
    ∀ arts k v, lookup arts k = some v → lookup (syncLoop extract toISO feed arts).1 k = some v := by
  induction feed with
  | nil => intro arts k v h; exact h
  | cons item rest ih =>
    intro arts k v h
    cases hl : lookup arts (articleId item.link) with
    | some a =>
      simp only [syncLoop, hl]
      exact ih arts k v h
    | none =>
      cases he : extract item.link with
      | none =>
        simp only [syncLoop, hl, he]
        exact ih arts k v h
      | some art =>
        simp only [syncLoop, hl, he]
        apply ih
        rw [lookup_setKey_ne]
        · exact h
        · intro hk
          rw [hk, hl] at h
          cases h

/-- After the loop, every feed item whose extraction can succeed has its id
in the store. -/
theorem syncLoop_covers (extract : String → Option ExtractedArticle) (toISO : String → String)
    (feed : List RSSItem) :
    ∀ arts, ∀ item ∈ feed,
      (∃ v, lookup (syncLoop extract toISO feed arts).1 (articleId item.link) = some v) ∨
        extract item.link = none := by
  induction feed with
  | nil => intro arts item h; cases h
  | cons item0 rest ih =>
    intro arts item hmem
    rcases List.mem_cons.1 hmem with hitem | hitem
    · subst hitem
      cases hl : lookup arts (articleId item.link) with
      | some a =>
        left
        refine ⟨a, ?_⟩
        simp only [syncLoop, hl]
        exact syncLoop_lookup_some extract toISO rest arts _ a hl
      | none =>
        cases he : extract item.link with
        | none => exact Or.inr rfl
        | some art =>
          left
          simp only [syncLoop, hl, he]
          exact ⟨_, syncLoop_lookup_some extract toISO rest _ _ _ (lookup_setKey_self arts _ _)⟩
    · cases hl : lookup arts (articleId item0.link) with
      | some a =>
        simp only [syncLoop, hl]
        exact ih arts item hitem
      | none =>
        cases he : extract item0.link with
        | none =>
          simp only [syncLoop, hl, he]
          exact ih arts item hitem
        | some art =>
          simp only [syncLoop, hl, he]
          exact ih _ item hitem

/-- If every feed item is either already cached or has a failing extraction,
the loop changes nothing. -/
theorem syncLoop_noop (extract : String → Option ExtractedArticle) (toISO : String → String)
    (feed : List RSSItem) :
    ∀ arts,
      (∀ item ∈ feed, lookup arts (articleId item.link) ≠ none ∨ extract item.link = none) →
      (syncLoop extract toISO feed arts).1 = arts := by
  induction feed with
  | nil => intro arts _; rfl
  | cons item rest ih =>
    intro arts H
    cases hl : lookup arts (articleId item.link) with
    | some a =>
      simp only [syncLoop, hl]
      exact ih arts (fun i hi => H i (List.mem_cons_of_mem _ hi))
    | none =>
      have hx : extract item.link = none := by
        rcases H item (List.mem_cons_self _ _) with h | h
        · exact absurd hl h
        · exact h
      simp only [syncLoop, hl, hx]
      exact ih arts (fun i hi => H i (List.mem_cons_of_mem _ hi))

/-- If every feed item is already cached, the loop calls the extractor on
nothing at all. -/
theorem syncLoop_calls_nil (extract : String → Option ExtractedArticle) (toISO : String → String)
    (feed : List RSSItem) :
    ∀ arts, (∀ item ∈ feed, lookup arts (articleId item.link) ≠ none) →
      (syncLoop extract toISO feed arts).2.2 = [] := by
  induction feed with
  | nil => intro arts _; rfl
  | cons item rest ih =>
    intro arts H
    cases hl : lookup arts (articleId item.link) with
    | some a =>
      simp only [syncLoop, hl]
      exact ih arts (fun i hi => H i (List.mem_cons_of_mem _ hi))
    | none => exact absurd hl (H item (List.mem_cons_self _ _))

/-- C3 (amended): re-running the reconcile on an unchanged feed (and
unchanged extractor behaviour) leaves the cache exactly as it was — in
particular it creates no new article record — and when every item of the
feed has a succeeding extraction the second run performs no extractor call
at all. (Items whose extraction keeps failing are retried: their id never
entered the store, which refutes the unconditional claim.) -/
theorem downloadFeedItems_second_run (extract : String → Option ExtractedArticle)
    (toISO : String → String) (feed : List RSSItem) (cache : FeedCache) :
    (downloadFeedItems extract toISO feed (downloadFeedItems extract toISO feed cache).1).1 =
      (downloadFeedItems extract toISO feed cache).1 ∧
    ((∀ item ∈ feed, extract item.link ≠ none) →
      (downloadFeedItems extract toISO feed
        (downloadFeedItems extract toISO feed cache).1).2.2 = []) := by
  have hcov : ∀ item ∈ feed,
      lookup (downloadFeedItems extract toISO feed cache).1.articles (articleId item.link) ≠ none ∨
        extract item.link = none := by
    intro item hi
    rcases syncLoop_covers extract toISO feed cache.articles item hi with ⟨v, hv⟩ | hx
    · left
      show lookup (markDeleted _ _) _ ≠ none
      rw [lookup_markDeleted, hv]
      simp
    · exact Or.inr hx
  constructor
  · have hnoop : (syncLoop extract toISO feed
        (downloadFeedItems extract toISO feed cache).1.articles).1 =
        (downloadFeedItems extract toISO feed cache).1.articles := by
      apply syncLoop_noop
      intro item hi
      rcases hcov item hi with h | h
      · exact Or.inl h
      · exact Or.inr h
    apply FeedCache.ext'
    · rfl
    · show markDeleted
        (syncLoop extract toISO feed (downloadFeedItems extract toISO feed cache).1.articles).1
        (syncLoop extract toISO feed (downloadFeedItems extract toISO feed cache).1.articles).2.1 =
        (downloadFeedItems extract toISO feed cache).1.articles
      rw [hnoop, syncLoop_ids]
      show markDeleted (markDeleted (syncLoop extract toISO feed cache.articles).1
          (syncLoop extract toISO feed cache.articles).2.1) (feed.map fun i => articleId i.link) =
        markDeleted (syncLoop extract toISO feed cache.articles).1
          (syncLoop extract toISO feed cache.articles).2.1
      rw [syncLoop_ids, markDeleted_idem]
  · intro hx
    show (syncLoop extract toISO feed (downloadFeedItems extract toISO feed cache).1.articles).2.2 = []
    apply syncLoop_calls_nil
    intro item hi
    rcases hcov item hi with h | h
    · exact h
    · exact absurd h (hx item hi)

/-- C3 counterexample: an extractor that always fails, a one-item feed, an
empty store. The first run calls the extractor and stores nothing, so the
second run calls the extractor again — the `no extractor call on the second
run` part of the claim is false. -/
theorem downloadFeedItems_second_run_counterexample :
    (downloadFeedItems extractNone id feedC3
      (downloadFeedItems extractNone id feedC3 cacheEmpty).1).2.2 = ["http://x/a"] := rfl

/-- Witness for `downloadFeedItems_second_run` with its hypothesis
discharged at a concrete (empty) feed and a nonempty store. -/
theorem downloadFeedItems_second_run_witness :
    (∀ item ∈ ([] : List RSSItem), extractNone item.link ≠ none) ∧
    (downloadFeedItems extractNone id []
      (downloadFeedItems extractNone id [] cacheC5).1).2.2 = [] ∧
    (downloadFeedItems extractNone id []
      (downloadFeedItems extractNone id [] cacheC5).1).1 =
      (downloadFeedItems extractNone id [] cacheC5).1 :=
  ⟨by simp,
   (downloadFeedItems_second_run extractNone id [] cacheC5).2 (by simp),
   (downloadFeedItems_second_run extractNone id [] cacheC5).1⟩

/-- C5: after a reconcile, every record whose id is absent from the
seen-this-sync id list has `deleted = true`, and every record present
before is still present afterwards with its `feedItem` and
`readabilityMeta` unchanged — tombstoned, never removed. -/
theorem downloadFeedItems_tombstones (extract : String → Option ExtractedArticle)
    (toISO : String → String) (feed : List RSSItem) (cache : FeedCache) (k : String)
    (a : FeedCacheArticle) :
    (lookup (downloadFeedItems extract toISO feed cache).1.articles k = some a →
      k ∉ (downloadFeedItems extract toISO feed cache).2.1 → a.deleted = true) ∧
    (lookup cache.articles k = some a →
      ∃ b, lookup (downloadFeedItems extract toISO feed cache).1.articles k = some b ∧
        b.feedItem = a.feedItem ∧ b.readabilityMeta = a.readabilityMeta) := by
  constructor
  · intro hl hk
    have : lookup (markDeleted (syncLoop extract toISO feed cache.articles).1
        (syncLoop extract toISO feed cache.articles).2.1) k = some a := hl
    rw [lookup_markDeleted] at this
    rcases hb : lookup (syncLoop extract toISO feed cache.articles).1 k with _ | b
    · rw [hb] at this
      cases this
    · rw [hb] at this
      have hm : k ∉ (syncLoop extract toISO feed cache.articles).2.1 := hk
      rw [Option.map_some', if_neg (by simpa using hm)] at this
      cases this
      rfl
  · intro hl
    have hsome := syncLoop_lookup_some extract toISO feed cache.articles k a hl
    refine ⟨(fun x => if ((syncLoop extract toISO feed cache.articles).2.1).contains k then x
      else { x with deleted := true }) a, ?_, ?_, ?_⟩
    · show lookup (markDeleted _ _) _ = _
      rw [lookup_markDeleted, hsome, Option.map_some']
    · by_cases hm : k ∈ (syncLoop extract toISO feed cache.articles).2.1 <;> simp [hm]
    · by_cases hm : k ∈ (syncLoop extract toISO feed cache.articles).2.1 <;> simp [hm]

/-- Witness for `downloadFeedItems_tombstones`: syncing an empty feed
tombstones the only record and keeps its data. -/
theorem downloadFeedItems_tombstones_witness :
    ({ artLive "k" with deleted := true } : FeedCacheArticle).deleted = true ∧
    (∃ b, lookup (downloadFeedItems extractNone id [] cacheC5).1.articles "k" = some b ∧
      b.feedItem = (artLive "k").feedItem ∧ b.readabilityMeta = (artLive "k").readabilityMeta) :=
  ⟨(downloadFeedItems_tombstones extractNone id [] cacheC5 "k"
      { artLive "k" with deleted := true }).1 (by decide) (by decide),
   (downloadFeedItems_tombstones extractNone id [] cacheC5 "k" (artLive "k")).2 (by decide)⟩

/-! ## Send-mode theorems -/

/-- C2 (amended): in individual mode, when the send of the second of three
unsent articles fails, the thrown send error aborts the loop: the in-memory
ledger gains exactly one SUCCESS entry for article 1, no entry at all for
articles 2 or 3 (in particular no FAILED entry), article 3 is never
attempted, and since `writeCache` is skipped the persisted cache is
unchanged — a subsequent run selects all three articles again. -/
theorem sendAllIndividual_fail_second (cache : FeedCache) (toAddr now : String)
    (disk : String → Option String) (sendOk : String → Bool)
    (a1 a2 a3 : String) (r1 r2 r3 : FeedCacheArticle)
    (hun : getUnsent cache (some toAddr) = [(a1, r1), (a2, r2), (a3, r3)])
    (h1 : sendOk a1 = true) (h2 : sendOk a2 = false)
    (hc1 : lookup cache.articles a1 = some r1) (hd1 : disk a1 ≠ none)
    (hc2 : lookup cache.articles a2 = some r2) (hd2 : disk a2 ≠ none) :
    (sendAllIndividual toAddr now disk sendOk cache).error = some (IndivError.sendErr a2) ∧
    (sendAllIndividual toAddr now disk sendOk cache).inMemory =
      logSend cache toAddr [a1] SendStatus.SUCCESS now ∧
    (sendAllIndividual toAddr now disk sendOk cache).persisted = cache ∧
    (sendAllIndividual toAddr now disk sendOk cache).attempted = [a1, a2] ∧
    getUnsent ((sendAllIndividual toAddr now disk sendOk cache).persisted) (some toAddr) =
      [(a1, r1), (a2, r2), (a3, r3)] := by
  rcases hs1 : disk a1 with _ | s1
  · exact absurd hs1 hd1
  rcases hs2 : disk a2 with _ | s2
  · exact absurd hs2 hd2
  have harts : (logSend cache toAddr [a1] SendStatus.SUCCESS now).articles = cache.articles := rfl
  have hglue : sendIndivGo toAddr now disk sendOk [(a1, r1), (a2, r2), (a3, r3)] cache =
      (logSend cache toAddr [a1] SendStatus.SUCCESS now, [a1, a2],
        some (IndivError.sendErr a2)) := by
    simp only [sendIndivGo, makeEpub, gatherArticles, hc1, hs1, h1, if_true]
    simp only [harts, hc2, hs2, h2]
    simp [h1]
  have hres : sendAllIndividual toAddr now disk sendOk cache =
      { persisted := cache
        inMemory := logSend cache toAddr [a1] SendStatus.SUCCESS now
        attempted := [a1, a2]
        error := some (IndivError.sendErr a2) } := by
    unfold sendAllIndividual
    rw [hun, hglue]
  rw [hres]
  exact ⟨rfl, rfl, rfl, rfl, hun⟩

/-- C2 counterexample: three unsent articles, content present, the second
send rejected. No FAILED entry exists anywhere afterwards, article 3 is
never attempted, and the persisted cache is unchanged — refuting the
claimed FAILED entry for article 2 and the claimed attempt of article 3. -/
theorem sendAllIndividual_fail_second_counterexample :
    ((sendAllIndividual "r" "t0" diskAll sendC2 cacheC2).inMemory.emails.filter
      (fun e => e.status == SendStatus.FAILED)) = [] ∧
    "a3" ∉ (sendAllIndividual "r" "t0" diskAll sendC2 cacheC2).attempted ∧
    (sendAllIndividual "r" "t0" diskAll sendC2 cacheC2).persisted = cacheC2 := by
  decide

/-- Witness for `sendAllIndividual_fail_second` at the concrete store. -/
theorem sendAllIndividual_fail_second_witness :
    (sendAllIndividual "r" "t0" diskAll sendC2 cacheC2).error =
      some (IndivError.sendErr "a2") ∧
    (sendAllIndividual "r" "t0" diskAll sendC2 cacheC2).attempted = ["a1", "a2"] :=
  have h := sendAllIndividual_fail_second cacheC2 "r" "t0" diskAll sendC2 "a1" "a2" "a3"
    (artLive "a1") (artLive "a2") (artLive "a3") (by decide) (by decide) (by decide)
    (by decide) (by decide) (by decide) (by decide)
  ⟨h.1, h.2.2.2.1⟩

/-- Every ledger entry present after the individual-mode loop either was
there before or has status SUCCESS. -/
theorem sendIndivGo_status (toAddr now : String) (disk : String → Option String)
    (sendOk : String → Bool) (l : List (String × FeedCacheArticle)) :
    ∀ cache, ∀ e ∈ (sendIndivGo toAddr now disk sendOk l cache).1.emails,
      e ∈ cache.emails ∨ e.status = SendStatus.SUCCESS := by
  induction l with
  | nil => intro cache e he; exact Or.inl he
  | cons p rest ih =>
    intro cache e he
    rcases p with ⟨id, art⟩
    rcases hm : makeEpub cache disk now [id] none with err | epub
    · simp only [sendIndivGo, hm] at he
      exact Or.inl he
    · by_cases hs : sendOk id
      · simp only [sendIndivGo, hm, hs, if_true] at he
        rcases ih (logSend cache toAddr [id] SendStatus.SUCCESS now) e he with h | h
        · rcases List.mem_append.1 h with h | h
          · exact Or.inl h
          · right
            rcases h with _ | ⟨_, h⟩
            · rfl
            · cases h
        · exact Or.inr h
      · simp only [sendIndivGo, hm, hs, if_false] at he
        exact Or.inl he

/-- C9: neither send path ever appends a FAILED entry: every ledger entry
after `sendAllIndividual` or `sendAllAmalgamate` either predates the run or
has status SUCCESS, for every input, transport outcome, and clock. -/
theorem ledger_appends_only_success (cache : FeedCache) (toAddr now : String)
    (disk : String → Option String) (sendOk : String → Bool) (sendOkA : Bool)
    (dateParse : Option String → Int) (opts : AmalgOpts) :
    (∀ e ∈ (sendAllIndividual toAddr now disk sendOk cache).inMemory.emails,
      e ∈ cache.emails ∨ e.status = SendStatus.SUCCESS) ∧
    (∀ e ∈ (sendAllAmalgamate toAddr now disk sendOkA dateParse opts cache).inMemory.emails,
      e ∈ cache.emails ∨ e.status = SendStatus.SUCCESS) := by
  constructor
  · intro e he
    exact sendIndivGo_status toAddr now disk sendOk _ cache e he
  · intro e he
    unfold sendAllAmalgamate at he
    simp only [] at he
    rcases hm : makeEpub cache disk now
        ((amalgSelection toAddr dateParse opts cache).map (fun p => p.1)) none with err | epub
    · rw [hm] at he
      exact Or.inl he
    · rw [hm] at he
      by_cases hs : sendOkA
      · simp only [hs, if_true] at he
        rcases List.mem_append.1 he with h | h
        · exact Or.inl h
        · right
          rcases h with _ | ⟨_, h⟩
          · rfl
          · cases h
      · simp only [hs, if_false] at he
        exact Or.inl he

/-- Witness for `ledger_appends_only_success`: a run that actually appends
an entry, checked to be SUCCESS. -/
theorem ledger_appends_only_success_witness :
    (⟨"t0", "r", ["b1"], SendStatus.SUCCESS⟩ : SendLogEntry) ∈
      (sendAllIndividual "r" "t0" diskAll sendAllOk cacheC9).inMemory.emails ∧
    ((⟨"t0", "r", ["b1"], SendStatus.SUCCESS⟩ : SendLogEntry) ∈ cacheC9.emails ∨
      (⟨"t0", "r", ["b1"], SendStatus.SUCCESS⟩ : SendLogEntry).status = SendStatus.SUCCESS) :=
  ⟨by decide,
   (ledger_appends_only_success cacheC9 "r" "t0" diskAll sendAllOk true dateParse0
      ⟨false, false⟩).1 _ (by decide)⟩

/-- C10: amalgamate mode does not short-circuit on an empty selection: with
no unsent article for the recipient it still builds an epub with zero
chapters, still performs exactly one (successful) send, and still appends a
SUCCESS ledger entry whose article list is empty. -/
theorem sendAllAmalgamate_empty_selection (cache : FeedCache) (toAddr now : String)
    (disk : String → Option String) (dateParse : Option String → Int) (opts : AmalgOpts)
    (h : getUnsent cache (some toAddr) = []) :
    (sendAllAmalgamate toAddr now disk true dateParse opts cache).error = none ∧
    (∃ ep, (sendAllAmalgamate toAddr now disk true dateParse opts cache).sent = some ep ∧
      ep.chapters = []) ∧
    (sendAllAmalgamate toAddr now disk true dateParse opts cache).persisted.emails =
      cache.emails ++ [⟨now, toAddr, [], SendStatus.SUCCESS⟩] := by
  have hsel : amalgSelection toAddr dateParse opts cache = [] := by
    unfold amalgSelection
    rw [h]
    simp [sortByLe]
  simp only [sendAllAmalgamate, hsel]
  simp [makeEpub, gatherArticles, logSend]

/-- Witness for `sendAllAmalgamate_empty_selection` on the empty cache. -/
theorem sendAllAmalgamate_empty_selection_witness :
    (sendAllAmalgamate "r" "t0" diskAll true dateParse0 ⟨true, true⟩ cacheEmpty).error = none ∧
    (∃ ep, (sendAllAmalgamate "r" "t0" diskAll true dateParse0 ⟨true, true⟩ cacheEmpty).sent =
      some ep ∧ ep.chapters = []) ∧
    (sendAllAmalgamate "r" "t0" diskAll true dateParse0 ⟨true, true⟩ cacheEmpty).persisted.emails =
      cacheEmpty.emails ++ [⟨"t0", "r", [], SendStatus.SUCCESS⟩] :=
  sendAllAmalgamate_empty_selection cacheEmpty "r" "t0" diskAll dateParse0 ⟨true, true⟩ rfl

end Rss2Epub
